import Mathlib

/-!
Verification development for the mailmodel repository (admin_app.py and
public_app_v0.py). The registry and CSV-to-JSONL pipeline is shallowly
embedded: Python strings are modelled as `List Char`, Python dicts keyed by
strings as functions `String → Option _`, and code that can raise an
exception returns `Option` (with `none` standing for a raised exception).
-/

/-! ### Python string primitives -/

/-- Model of Python `str.strip()`: remove leading and trailing whitespace. -/
def pyStrip (s : List Char) : List Char :=
  ((s.dropWhile Char.isWhitespace).reverse.dropWhile Char.isWhitespace).reverse

/-- Model of Python `str.lower()` (ASCII case folding). -/
def pyLower (s : List Char) : List Char :=
  s.map Char.toLower

/-- Accumulator-passing core of Python `str.split()` (split on whitespace
runs, discarding empty pieces). The first argument is the reversed chunk of
non-whitespace characters read so far. -/
def splitAux : List Char → List Char → List (List Char)
  | acc, [] => if acc = [] then [] else [acc.reverse]
  | acc, c :: cs =>
    if c.isWhitespace then
      if acc = [] then splitAux [] cs else acc.reverse :: splitAux [] cs
    else splitAux (c :: acc) cs

/-- Model of Python `str.split()` with no separator argument. -/
def pySplit (s : List Char) : List (List Char) :=
  splitAux [] s

/-- Model of Python `str.endswith(sfx)`. -/
def pyEndsWith (s sfx : List Char) : Bool :=
  decide (sfx.length ≤ s.length) && decide (s.drop (s.length - sfx.length) = sfx)

/-! ### CSV rows and the JSONL builder (admin_app.py, section 2)

A `Row` models one `csv.DictReader` row restricted to the three columns the
builder consumes. Each field is `Option (Option (List Char))`: the outer
`Option` is key presence in the dict (`none` = the CSV had no such column),
the inner `Option` distinguishes a real string value from Python `None`
(which `DictReader` supplies for the missing cells of a short row). -/

structure Row where
  parsedFrom : Option (Option (List Char))
  parsedSubject : Option (Option (List Char))
  parsedBody : Option (Option (List Char))
deriving DecidableEq

/-- `(row.get("Parsed From") or "")`: both an absent key and a `None` value
(and an empty string) collapse to the empty string. -/
def rowSender (r : Row) : List Char :=
  (r.parsedFrom.getD none).getD []

/-- `row.get(key, "")` followed by `.strip()`-readiness: an absent key yields
the default `""`; a present key whose value is Python `None` makes the
subsequent `.strip()` raise `AttributeError`, modelled as `none`. -/
def getField (f : Option (Option (List Char))) : Option (List Char) :=
  match f with
  | none => some []
  | some none => none
  | some (some s) => some s

/-- The membership test of line 101: `parsed_sender in lower_senders`, where
`parsed_sender` is the stored sender stripped and lowercased. Note that the
members of `lower_senders` were lowercased but not stripped (line 96). -/
def senderMatches (lower_senders : List (List Char)) (r : Row) : Bool :=
  decide (pyLower (pyStrip (rowSender r)) ∈ lower_senders)

structure Message where
  role : List Char
  content : List Char
deriving DecidableEq

structure TrainingRecord where
  messages : List Message
deriving DecidableEq

/-- The fixed user-message template of line 105. -/
def user_content (subject : List Char) : List Char :=
  "Subject: ".data ++ subject ++ "\nPlease respond with the email body style.".data

/-- One chat-format record built from the raw subject and body cell values
(lines 102-113): both are stripped, the subject is embedded in the fixed
template, the body becomes the assistant message. -/
def mkRecordFrom (subject body : List Char) : TrainingRecord :=
  ⟨[⟨"user".data, user_content (pyStrip subject)⟩, ⟨"assistant".data, pyStrip body⟩]⟩

/-- The record built from a row, using the dict-lookup defaults. -/
def mkRecord (r : Row) : TrainingRecord :=
  mkRecordFrom ((getField r.parsedSubject).getD []) ((getField r.parsedBody).getD [])

/-- The filtering loop of lines 99-115. Returns `none` when some matching
row has a `None` subject or body cell (Python raises `AttributeError`). -/
def buildRecords (lower_senders : List (List Char)) : List Row → Option (List TrainingRecord)
  | [] => some []
  | r :: rs =>
    if senderMatches lower_senders r then
      match getField r.parsedSubject, getField r.parsedBody with
      | some subject, some body =>
        (buildRecords lower_senders rs).map (fun recs => mkRecordFrom subject body :: recs)
      | _, _ => none
    else buildRecords lower_senders rs

/-! ### json.dumps model (default options, as used on line 114) -/

/-- Hexadecimal digit table for `\uXXXX` escapes. -/
def hexDigit (n : Nat) : Char :=
  match n with
  | 0 => '0' | 1 => '1' | 2 => '2' | 3 => '3' | 4 => '4' | 5 => '5' | 6 => '6' | 7 => '7'
  | 8 => '8' | 9 => '9' | 10 => 'a' | 11 => 'b' | 12 => 'c' | 13 => 'd' | 14 => 'e' | 15 => 'f'
  | _ => '0'

/-- `\uXXXX` escape of a code point (BMP form). -/
def uEscape (n : Nat) : List Char :=
  ['\\', 'u', hexDigit (n / 4096 % 16), hexDigit (n / 256 % 16), hexDigit (n / 16 % 16),
    hexDigit (n % 16)]

/-- Escape of a single character inside a JSON string, following
`json.dumps` defaults (`ensure_ascii=True`). -/
def jsonEscapeChar (c : Char) : List Char :=
  if c = '"' then ['\\', '"']
  else if c = '\\' then ['\\', '\\']
  else if c = '\n' then ['\\', 'n']
  else if c = '\r' then ['\\', 'r']
  else if c = '\t' then ['\\', 't']
  else if c = '\x08' then ['\\', 'b']
  else if c = '\x0c' then ['\\', 'f']
  else if c.toNat < 32 ∨ c.toNat > 126 then uEscape c.toNat
  else [c]

/-- Escape of a whole string body. -/
def jsonEscape (s : List Char) : List Char :=
  s.foldr (fun c acc => jsonEscapeChar c ++ acc) []

/-- A quoted JSON string literal. -/
def jsonStr (s : List Char) : List Char :=
  '"' :: (jsonEscape s ++ ['"'])

/-- Comma-space separated join, the default `json.dumps` item separator. -/
def joinSep (sep : List Char) : List (List Char) → List Char
  | [] => []
  | [x] => x
  | x :: xs => x ++ sep ++ joinSep sep xs

/-- Serialization of one `{role, content}` message object. -/
def serializeMessage (m : Message) : List Char :=
  "\x7b\"role\": ".data ++ jsonStr m.role ++ ", \"content\": ".data ++ jsonStr m.content
    ++ "\x7d".data

/-- Serialization of one record, i.e. one output line (without the trailing
newline that `f_out.write` appends). -/
def serializeRecord (r : TrainingRecord) : List Char :=
  "\x7b\"messages\": [".data ++ joinSep ", ".data (r.messages.map serializeMessage)
    ++ "]\x7d".data

/-- Model of `build_jsonl_for_senders` (lines 91-116). `prev_output` is the
previous content of the output file; the file is opened with mode "w", so
that content is discarded. The result is the pair of the lines written and
the returned count, or `none` when the loop raised. -/
def build_jsonl_for_senders (all_rows : List Row) (selected_senders : List (List Char))
    (prev_output : List (List Char)) : Option (List (List Char) × Nat) :=
  let lower_senders := selected_senders.map pyLower
  match buildRecords lower_senders all_rows with
  | some recs => some (recs.map serializeRecord, recs.length)
  | none => none

/-! ### get_first_name and the sender grouping (lines 121-123, 398-421) -/

/-- Model of `get_first_name` (lines 121-123): `full_name.split()[0] if
full_name else ""`. The `[0]` indexing raises `IndexError` (modelled as
`none`) when the split list is empty, i.e. on a whitespace-only name. -/
def get_first_name (full_name : List Char) : Option (List Char) :=
  if full_name = [] then some [] else (pySplit full_name).head?

/-- `grouped_senders.setdefault`-style insertion (lines 402-405): append the
sender to the group of its first name, creating the group at the end when it
does not exist yet. -/
def addToGroup (g : List (List Char × List (List Char))) (fn s : List Char) :
    List (List Char × List (List Char)) :=
  match g with
  | [] => [(fn, [s])]
  | (k, l) :: rest => if k = fn then (k, l ++ [s]) :: rest else (k, l) :: addToGroup rest fn s

/-- The grouping loop of lines 400-405, processing senders in order. -/
def group_senders_aux (acc : List (List Char × List (List Char))) :
    List (List Char) → Option (List (List Char × List (List Char)))
  | [] => some acc
  | s :: rest =>
    match get_first_name s with
    | none => none
    | some fn => group_senders_aux (addToGroup acc fn s) rest

/-- Grouping of a sender list by first name. -/
def group_senders (senders : List (List Char)) :
    Option (List (List Char × List (List Char))) :=
  group_senders_aux [] senders

/-- Python dict lookup `grouped_senders[fn]`, `none` on `KeyError`. -/
def lookupGroup : List (List Char × List (List Char)) → List Char → Option (List (List Char))
  | [], _ => none
  | (k, l) :: rest, fn => if k = fn then some l else lookupGroup rest fn

/-- The display entry of lines 408-412: a group with more than one member is
shown as `f"{fn} (All variations)"`, a singleton as its sole member. -/
def display_sender (fn : List Char) (full_list : List (List Char)) : List Char :=
  if full_list.length > 1 then fn ++ " (All variations)".data else full_list.headD []

/-- The selection expansion of lines 416-421: a choice that ends with
`"(All variations)"` expands to the whole group of its first token, any
other choice stands for itself. -/
def expand_display (grouped_senders : List (List Char × List (List Char))) (d : List Char) :
    Option (List (List Char)) :=
  if pyEndsWith d "(All variations)".data then
    match (pySplit d).head? with
    | none => none
    | some fn => lookupGroup grouped_senders fn
  else some [d]

/-! ### The model registry (admin_app.py sections 0-1, public_app_v0.py section 1) -/

/-- One value of the on-disk JSON store: either a legacy bare string or an
object whose `id` and `public` keys may each be absent. -/
inductive StoreVal where
  | str : String → StoreVal
  | obj : Option String → Option Bool → StoreVal
deriving DecidableEq

/-- A normalized registry entry. -/
structure ModelEntry where
  id : String
  public : Bool
deriving DecidableEq

/-- An in-memory registry mapping: alias to entry. -/
abbrev RegMap : Type := String → Option ModelEntry

/-- The parsed on-disk store mapping: alias to raw JSON value. -/
abbrev StoreMap : Type := String → Option StoreVal

/-- `PRE_CREATED_MODELS` (admin_app.py lines 15-28). -/
def PRE_CREATED_MODELS : RegMap := fun a =>
  if a = "model_AlSpfqGn" then some ⟨"ft:gpt-3.5-turbo-0125:personal::AlSpfqGn", true⟩
  else if a = "model_AlTffoN4" then some ⟨"ft:gpt-3.5-turbo-0125:personal::AlTffoN4", false⟩
  else if a = "model_AlTewxyb" then some ⟨"ft:gpt-3.5-turbo-0125:personal::AlTewxyb", true⟩
  else none

/-- The per-entry conversion of admin_app.py lines 47-56: a bare string
becomes `{id, public: true}`; an object without `id` is skipped; a missing
`public` defaults to `true`. -/
def convert_entry : StoreVal → Option ModelEntry
  | .str s => some ⟨s, true⟩
  | .obj none _ => none
  | .obj (some i) p => some ⟨i, p.getD true⟩

/-- `load_saved_models` of admin_app.py (lines 35-60), on a store that
parses as a dict. -/
def load_saved_models (store : StoreMap) : RegMap :=
  fun a => (store a).bind convert_entry

/-- `load_saved_models` of public_app_v0.py (lines 11-24): when the file
parses as a dict it is returned unchanged, with no entry conversion. -/
def load_saved_models_public (store : StoreMap) : StoreMap :=
  store

/-- `save_saved_models` (lines 62-70): the full mapping is written out; a
saved entry always carries both keys. -/
def save_saved_models (models_dict : RegMap) : StoreMap :=
  fun a => (models_dict a).map (fun e => StoreVal.obj (some e.id) (some e.public))

/-- The merge of lines 145-148: user entries overwrite builtins wholesale. -/
def merged_models (builtin user_models : RegMap) : RegMap :=
  fun a =>
    match user_models a with
    | some e => some e
    | none => builtin a

/-- Session initialization (lines 143-149). `dict(PRE_CREATED_MODELS)`
copies the builtin mapping, so the loop mutates only the copy; the pair
returned is (merged session view, the builtin mapping after the merge). -/
def init_fine_tuned_models (builtin user_models : RegMap) : RegMap × RegMap :=
  (merged_models builtin user_models, builtin)

/-- The Add/Update Model handler (lines 357-371): on validation success the
session view and the on-disk store (re-read, updated, saved) both receive
the entry under the raw alias; otherwise nothing changes and a warning is
shown. The result is (session after, disk after, whether it was applied). -/
def add_update_model (session : RegMap) (disk : StoreMap) (alias_in id_in : String)
    (public_in : Bool) : RegMap × StoreMap × Bool :=
  if pyStrip alias_in.data ≠ [] ∧ pyStrip id_in.data ≠ [] then
    ((fun x => if x = alias_in then some ⟨id_in, public_in⟩ else session x),
     save_saved_models
       (fun x => if x = alias_in then some ⟨id_in, public_in⟩ else load_saved_models disk x),
     true)
  else
    (session, disk, false)

/-- `if r_alias in d: del d[r_alias]` (lines 329-330 and 339-340). -/
def del_if_present (m : RegMap) (a : String) : RegMap :=
  fun x => if x = a then none else m x

/-- Removal of one alias from both the session view and the user store
mapping, as the Save All Changes handler performs it. -/
def remove_model (session user_models : RegMap) (a : String) : RegMap × RegMap :=
  (del_if_present session a, del_if_present user_models a)

/-- The Save All Changes handler (lines 321-342): every displayed alias not
flagged for removal is written into the session view and into the re-read
user store with its form value; flagged aliases are deleted from both; the
user store is then saved. -/
def save_all_changes (session : RegMap) (disk : StoreMap) (updated_data : RegMap)
    (removed_aliases : String → Bool) : RegMap × StoreMap :=
  let session2 : RegMap := fun a =>
    if removed_aliases a then none
    else
      match updated_data a with
      | some v => some v
      | none => session a
  let user_models := load_saved_models disk
  let user_models2 : RegMap := fun a =>
    if removed_aliases a then none
    else
      match updated_data a with
      | some v => some v
      | none => user_models a
  (session2, save_saved_models user_models2)

/-! ### Concrete instances used by witnesses and counterexamples -/

def regEmpty : RegMap := fun _ => none

def storeEmpty : StoreMap := fun _ => none

/-- A row whose sender carries a trailing space. -/
def rowAlice : Row :=
  ⟨some (some "alice ".data), some (some "Hi".data), some (some "Hello there".data)⟩

/-- A row with sender exactly "alice". -/
def rowPlain : Row :=
  ⟨some (some "alice".data), some (some "Hi".data), some (some "Hello".data)⟩

/-- A row from a different sender. -/
def rowBob : Row :=
  ⟨some (some "Bob".data), some (some "X".data), some (some "Y".data)⟩

/-- A short-CSV-row artifact: the subject key is present with value None. -/
def rowBadSubject : Row :=
  ⟨some (some "alice".data), some none, some (some "x".data)⟩

/-- A row whose subject and body columns are absent entirely. -/
def rowNoKeys : Row :=
  ⟨some (some "alice".data), none, none⟩

def builtin0 : RegMap := fun a => if a = "m1" then some ⟨"A", true⟩ else none

def user0 : RegMap := fun a => if a = "m1" then some ⟨"B", false⟩ else none

/-- A store holding one legacy string entry and one entry missing `id`. -/
def store_legacy : StoreMap := fun a =>
  if a = "m1" then some (StoreVal.str "ft:abc")
  else if a = "bad" then some (StoreVal.obj none (some true))
  else none

def updated0 : RegMap := fun a =>
  if a = "model_AlSpfqGn" then some ⟨"ft:gpt-3.5-turbo-0125:personal::AlSpfqGn", true⟩
  else none

def removed0 : String → Bool := fun _ => false

def demoSenders : List (List Char) :=
  ["Alice Smith".data, "Alice Jones".data, "Bob Lee".data]

def demoGrouped : List (List Char × List (List Char)) :=
  [("Alice".data, ["Alice Smith".data, "Alice Jones".data]),
   ("Bob".data, ["Bob Lee".data])]

/-! ### Registry claim theorems -/

/-- Claim C2 counterexample. The on-disk store `{"m1": "ft:abc", "bad":
{"public": true}}` is loaded by the public application with no entry
conversion at all: the legacy bare string stays a bare string and the entry
missing `id` stays in the mapping, contradicting the claim that the
normalization holds for every load in both applications (the admin load,
shown alongside, does drop it). -/
theorem claim_C2_counterexample :
    load_saved_models_public store_legacy "bad" = some (StoreVal.obj none (some true)) ∧
    load_saved_models_public store_legacy "m1" = some (StoreVal.str "ft:abc") ∧
    load_saved_models store_legacy "bad" = none := by
  refine ⟨rfl, rfl, rfl⟩

/-- Claim C2 (amended): the admin application's `load_saved_models`
normalizes every entry of the on-disk mapping — a bare string becomes
`{id, public: true}`, an object without `id` is dropped, a missing `public`
defaults to `true` — while the public application's `load_saved_models`
returns the parsed mapping unchanged. -/
theorem claim_C2_load_normalization (store : StoreMap) (a : String) :
    (∀ s, store a = some (StoreVal.str s) → load_saved_models store a = some ⟨s, true⟩) ∧
    (∀ p, store a = some (StoreVal.obj none p) → load_saved_models store a = none) ∧
    (∀ i, store a = some (StoreVal.obj (some i) none) →
      load_saved_models store a = some ⟨i, true⟩) ∧
    (∀ i b, store a = some (StoreVal.obj (some i) (some b)) →
      load_saved_models store a = some ⟨i, b⟩) ∧
    load_saved_models_public store = store := by
  refine ⟨?_, ?_, ?_, ?_, rfl⟩ <;> intros <;>
    simp_all [load_saved_models, convert_entry]

/-- Witness for the amended claim C2 at the concrete store
`{"m1": "ft:abc", "bad": {"public": true}}`. -/
theorem claim_C2_witness :
    load_saved_models store_legacy "m1" = some ⟨"ft:abc", true⟩ ∧
    load_saved_models store_legacy "bad" = none ∧
    load_saved_models_public store_legacy = store_legacy :=
  ⟨(claim_C2_load_normalization store_legacy "m1").1 "ft:abc" rfl,
   (claim_C2_load_normalization store_legacy "bad").2.1 (some true) rfl,
   (claim_C2_load_normalization store_legacy "bad").2.2.2.2⟩

/-- Claim C3: the merged session view maps an alias to the user-store entry
when one exists (replacing any builtin entry wholesale) and to the builtin
entry otherwise; the builtin mapping itself is left unchanged by the
initialization (the code merges into a copy made by `dict(...)`). -/
theorem claim_C3_merged_view (builtin user_models : RegMap) (a : String) :
    (∀ e, user_models a = some e → (init_fine_tuned_models builtin user_models).1 a = some e) ∧
    (user_models a = none → (init_fine_tuned_models builtin user_models).1 a = builtin a) ∧
    (init_fine_tuned_models builtin user_models).2 = builtin := by
  refine ⟨?_, ?_, rfl⟩ <;> intros <;>
    simp_all [init_fine_tuned_models, merged_models]

/-- Witness for claim C3: builtin `m1 = {id: A, public: true}` overridden by
user `m1 = {id: B, public: false}` yields exactly `{id: B, public: false}`,
an alias absent from the user store falls back to the builtin entry, and the
builtin mapping is unchanged. -/
theorem claim_C3_witness :
    user0 "m1" = some ⟨"B", false⟩ ∧
    (init_fine_tuned_models builtin0 user0).1 "m1" = some ⟨"B", false⟩ ∧
    user0 "m2" = none ∧
    (init_fine_tuned_models builtin0 user0).1 "m2" = builtin0 "m2" ∧
    (init_fine_tuned_models builtin0 user0).2 = builtin0 :=
  ⟨rfl, (claim_C3_merged_view builtin0 user0 "m1").1 ⟨"B", false⟩ rfl, rfl,
   (claim_C3_merged_view builtin0 user0 "m2").2.1 rfl,
   (claim_C3_merged_view builtin0 user0 "m1").2.2⟩

/-- Claim C5 counterexample. The alias `" "` and the id `"ft:x"` are both
non-empty strings, so by the claim this upsert is valid and the merged view
should immediately map `" "` to the new entry; the code instead rejects it
(the alias is empty after stripping) and performs no mutation. -/
theorem claim_C5_counterexample :
    (" " ≠ "") ∧
    (add_update_model regEmpty storeEmpty " " "ft:x" true).1 " " = none ∧
    (add_update_model regEmpty storeEmpty " " "ft:x" true).2.2 = false := by
  refine ⟨by decide, ?_, ?_⟩ <;> decide

/-- Claim C5 (amended): for every upsert whose alias and id are non-empty
after trimming, the session view immediately maps the (raw) alias to the new
entry, and loading the store after the accompanying save yields that entry
under that alias as well. -/
theorem claim_C5_upsert_roundtrip (session : RegMap) (disk : StoreMap)
    (alias_in id_in : String) (public_in : Bool)
    (h : pyStrip alias_in.data ≠ [] ∧ pyStrip id_in.data ≠ []) :
    (add_update_model session disk alias_in id_in public_in).1 alias_in
      = some ⟨id_in, public_in⟩ ∧
    load_saved_models (add_update_model session disk alias_in id_in public_in).2.1 alias_in
      = some ⟨id_in, public_in⟩ ∧
    (add_update_model session disk alias_in id_in public_in).2.2 = true := by
  refine ⟨?_, ?_, ?_⟩ <;>
    simp [add_update_model, if_pos h, load_saved_models, save_saved_models, convert_entry]

/-- Witness for the amended claim C5 at alias `"my_model"`, id `"ft:new"`. -/
theorem claim_C5_witness :
    (pyStrip "my_model".data ≠ [] ∧ pyStrip "ft:new".data ≠ []) ∧
    (add_update_model regEmpty storeEmpty "my_model" "ft:new" false).1 "my_model"
      = some ⟨"ft:new", false⟩ ∧
    load_saved_models (add_update_model regEmpty storeEmpty "my_model" "ft:new" false).2.1
      "my_model" = some ⟨"ft:new", false⟩ :=
  ⟨by decide,
   (claim_C5_upsert_roundtrip regEmpty storeEmpty "my_model" "ft:new" false (by decide)).1,
   (claim_C5_upsert_roundtrip regEmpty storeEmpty "my_model" "ft:new" false (by decide)).2.1⟩

/-- Claim C7: an upsert whose alias or id is empty after trimming is
rejected (the handler reports a warning, modelled by the `false` flag) and
mutates neither the session view nor the on-disk store. -/
theorem claim_C7_upsert_validation (session : RegMap) (disk : StoreMap)
    (alias_in id_in : String) (public_in : Bool)
    (h : pyStrip alias_in.data = [] ∨ pyStrip id_in.data = []) :
    add_update_model session disk alias_in id_in public_in = (session, disk, false) := by
  rcases h with h | h <;> simp [add_update_model, h]

/-- Witness for claim C7 at the empty alias. -/
theorem claim_C7_witness :
    pyStrip "".data = [] ∧
    add_update_model regEmpty storeEmpty "" "ft:x" true = (regEmpty, storeEmpty, false) :=
  ⟨rfl, claim_C7_upsert_validation regEmpty storeEmpty "" "ft:x" true (Or.inl rfl)⟩

/-- Claim C8: removing an alias deletes it from both the session view and
the user-store mapping, leaves every other alias untouched, is a no-op on an
absent alias, and is idempotent. -/
theorem claim_C8_remove_idempotent (session user_models : RegMap) (a : String) :
    (remove_model session user_models a).1 a = none ∧
    (remove_model session user_models a).2 a = none ∧
    (∀ x, x ≠ a → (remove_model session user_models a).1 x = session x ∧
      (remove_model session user_models a).2 x = user_models x) ∧
    (session a = none → user_models a = none →
      remove_model session user_models a = (session, user_models)) ∧
    remove_model (remove_model session user_models a).1 (remove_model session user_models a).2 a
      = remove_model session user_models a := by
  refine ⟨by simp [remove_model, del_if_present], by simp [remove_model, del_if_present],
    ?_, ?_, ?_⟩
  · intro x hx
    simp [remove_model, del_if_present, hx]
  · intro hs hu
    refine Prod.ext ?_ ?_ <;> funext x <;> simp only [remove_model, del_if_present] <;>
      split <;> simp_all
  · refine Prod.ext ?_ ?_ <;> funext x <;> simp only [remove_model, del_if_present] <;>
      split <;> rfl

/-- Witness for claim C8: removing the absent alias `"zz"` changes nothing,
and removing the present alias `"m1"` deletes it. -/
theorem claim_C8_witness :
    builtin0 "zz" = none ∧ user0 "zz" = none ∧
    remove_model builtin0 user0 "zz" = (builtin0, user0) ∧
    (remove_model builtin0 user0 "m1").1 "m1" = none :=
  ⟨rfl, rfl, (claim_C8_remove_idempotent builtin0 user0 "zz").2.2.2.1 rfl rfl,
   (claim_C8_remove_idempotent builtin0 user0 "m1").1⟩

/-- Claim C10: the Save All Changes handler writes every alias that carries
a form value and is not flagged for removal — builtin aliases included —
into the on-disk user store with that form value, and on every subsequent
load-and-merge the stored entry shadows the in-memory builtin default. -/
theorem claim_C10_bulk_save (session : RegMap) (disk : StoreMap) (updated_data : RegMap)
    (removed_aliases : String → Bool) (builtin : RegMap) (a : String) (e : ModelEntry)
    (hupd : updated_data a = some e) (hrem : removed_aliases a = false) :
    (save_all_changes session disk updated_data removed_aliases).2 a
      = some (StoreVal.obj (some e.id) (some e.public)) ∧
    merged_models builtin
      (load_saved_models (save_all_changes session disk updated_data removed_aliases).2) a
      = some e := by
  cases e with
  | mk i p =>
    constructor <;>
      simp [save_all_changes, save_saved_models, load_saved_models, convert_entry,
        merged_models, hupd, hrem]

/-- Witness for claim C10: after a bulk save over the builtin defaults, the
builtin alias `model_AlSpfqGn` is materialized in the on-disk store and
shadows the builtin entry in the merged view of a subsequent load. -/
theorem claim_C10_witness :
    updated0 "model_AlSpfqGn"
      = some ⟨"ft:gpt-3.5-turbo-0125:personal::AlSpfqGn", true⟩ ∧
    (save_all_changes PRE_CREATED_MODELS storeEmpty updated0 removed0).2 "model_AlSpfqGn"
      = some (StoreVal.obj (some "ft:gpt-3.5-turbo-0125:personal::AlSpfqGn") (some true)) ∧
    merged_models PRE_CREATED_MODELS
      (load_saved_models (save_all_changes PRE_CREATED_MODELS storeEmpty updated0 removed0).2)
      "model_AlSpfqGn" = some ⟨"ft:gpt-3.5-turbo-0125:personal::AlSpfqGn", true⟩ :=
  ⟨rfl,
   (claim_C10_bulk_save PRE_CREATED_MODELS storeEmpty updated0 removed0 PRE_CREATED_MODELS
     "model_AlSpfqGn" ⟨"ft:gpt-3.5-turbo-0125:personal::AlSpfqGn", true⟩ rfl rfl).1,
   (claim_C10_bulk_save PRE_CREATED_MODELS storeEmpty updated0 removed0 PRE_CREATED_MODELS
     "model_AlSpfqGn" ⟨"ft:gpt-3.5-turbo-0125:personal::AlSpfqGn", true⟩ rfl rfl).2⟩

/-! ### Builder helper lemmas -/

/-- `build_jsonl_for_senders` as a map over the record-building loop. -/
theorem build_jsonl_eq (rows : List Row) (selected prev : List (List Char)) :
    build_jsonl_for_senders rows selected prev =
      (buildRecords (selected.map pyLower) rows).map
        (fun recs => (recs.map serializeRecord, recs.length)) := by
  cases hb : buildRecords (selected.map pyLower) rows <;>
    simp [build_jsonl_for_senders, hb]

/-- A successful run of the loop builds exactly one record per matching row,
in input order. -/
theorem buildRecords_eq_filterMap (ls : List (List Char)) :
    ∀ rows recs, buildRecords ls rows = some recs →
      recs = (rows.filter (senderMatches ls)).map mkRecord := by
  intro rows
  induction rows with
  | nil =>
    intro recs h
    simp only [buildRecords, Option.some.injEq] at h
    simp [← h]
  | cons r rs ih =>
    intro recs h
    cases hm : senderMatches ls r with
    | false =>
      simp only [buildRecords, hm, Bool.false_eq_true, if_false] at h
      simp only [List.filter_cons, hm, Bool.false_eq_true, if_false]
      exact ih recs h
    | true =>
      simp only [buildRecords, hm, if_true] at h
      rcases hs : getField r.parsedSubject with _ | subject <;> rw [hs] at h
      · simp at h
      rcases hb : getField r.parsedBody with _ | body <;> rw [hb] at h
      · simp at h
      rw [Option.map_eq_some'] at h
      obtain ⟨recs0, hrecs0, hcons⟩ := h
      subst hcons
      simp only [List.filter_cons, hm, if_true, List.map_cons]
      have hmk : mkRecordFrom subject body = mkRecord r := by
        simp [mkRecord, hs, hb]
      rw [hmk, ih recs0 hrecs0]

/-- `getField` fails exactly on a present key with a `None` value. -/
theorem getField_eq_none_iff (f : Option (Option (List Char))) :
    getField f = none ↔ f = some none := by
  cases f with
  | none => simp [getField]
  | some v => cases v <;> simp [getField]

/-- The loop succeeds whenever no matching row carries a `None` subject or
body cell. -/
theorem buildRecords_isSome (ls : List (List Char)) :
    ∀ rows, (∀ r ∈ rows, senderMatches ls r = true →
      r.parsedSubject ≠ some none ∧ r.parsedBody ≠ some none) →
      (buildRecords ls rows).isSome = true := by
  intro rows
  induction rows with
  | nil => intro _; rfl
  | cons r rs ih =>
    intro h
    cases hm : senderMatches ls r with
    | false =>
      simp only [buildRecords, hm, Bool.false_eq_true, if_false]
      exact ih fun x hx => h x (by simp [hx])
    | true =>
      obtain ⟨h1, h2⟩ := h r (by simp) hm
      rcases hs : getField r.parsedSubject with _ | subject
      · exact absurd ((getField_eq_none_iff _).mp hs) h1
      rcases hb : getField r.parsedBody with _ | body
      · exact absurd ((getField_eq_none_iff _).mp hb) h2
      simp only [buildRecords, hm, if_true, hs, hb]
      rw [Option.isSome_map']
      exact ih fun x hx => h x (by simp [hx])

/-! ### No output line contains a newline -/

theorem hexDigit_ne_newline (n : Nat) : hexDigit n ≠ '\n' := by
  unfold hexDigit
  split <;> decide

theorem newline_not_mem_uEscape (n : Nat) : '\n' ∉ uEscape n := by
  intro hmem
  simp only [uEscape, List.mem_cons, List.not_mem_nil, or_false] at hmem
  rcases hmem with h | h | h | h | h | h
  · exact absurd h (by decide)
  · exact absurd h (by decide)
  all_goals exact hexDigit_ne_newline _ h.symm

theorem newline_not_mem_jsonEscapeChar (c : Char) : '\n' ∉ jsonEscapeChar c := by
  unfold jsonEscapeChar
  split_ifs with h1 h2 h3 h4 h5 h6 h7 h8
  · decide
  · decide
  · decide
  · decide
  · decide
  · decide
  · decide
  · exact newline_not_mem_uEscape _
  · intro he
    simp only [List.mem_singleton] at he
    exact h3 he.symm

theorem newline_not_mem_jsonEscape (s : List Char) : '\n' ∉ jsonEscape s := by
  induction s with
  | nil => simp [jsonEscape]
  | cons c cs ih =>
    simp only [jsonEscape, List.foldr_cons, List.mem_append]
    rintro (h | h)
    · exact newline_not_mem_jsonEscapeChar c h
    · exact ih h

theorem newline_not_mem_jsonStr (s : List Char) : '\n' ∉ jsonStr s := by
  simp only [jsonStr, List.mem_cons, List.mem_append, List.mem_singleton]
  rintro (h | h | h)
  · exact absurd h (by decide)
  · exact newline_not_mem_jsonEscape s h
  · exact absurd h (by decide)

theorem newline_not_mem_serializeMessage (m : Message) : '\n' ∉ serializeMessage m := by
  simp only [serializeMessage, List.mem_append]
  rintro ((((h | h) | h) | h) | h)
  · exact absurd h (by decide)
  · exact newline_not_mem_jsonStr _ h
  · exact absurd h (by decide)
  · exact newline_not_mem_jsonStr _ h
  · exact absurd h (by decide)

theorem newline_not_mem_joinSep (sep : List Char) (hsep : '\n' ∉ sep) :
    ∀ xs, (∀ x ∈ xs, '\n' ∉ x) → '\n' ∉ joinSep sep xs := by
  intro xs
  induction xs with
  | nil => simp [joinSep]
  | cons x xs ih =>
    intro hx
    cases xs with
    | nil => simpa [joinSep] using hx x (by simp)
    | cons y ys =>
      simp only [joinSep, List.mem_append]
      rintro ((h | h) | h)
      · exact hx x (by simp) h
      · exact hsep h
      · exact ih (fun z hz => hx z (by simp [hz])) h

theorem newline_not_mem_serializeRecord (r : TrainingRecord) : '\n' ∉ serializeRecord r := by
  simp only [serializeRecord, List.mem_append]
  rintro ((h | h) | h)
  · exact absurd h (by decide)
  · refine newline_not_mem_joinSep _ (by decide) _ ?_ h
    intro x hx
    obtain ⟨m, _, rfl⟩ := List.mem_map.mp hx
    exact newline_not_mem_serializeMessage m
  · exact absurd h (by decide)

/-! ### Builder claim theorems -/

/-- Claim C1 counterexample. The stored sender is exactly `"alice"` and the
selected sender is `" alice"` (leading whitespace). By the claim the
comparison trims both sides, so this selection should match the row; the
code lowercases but does not trim the filter set, so no row is selected and
the build produces zero records. -/
theorem claim_C1_counterexample :
    pyStrip " alice".data = "alice".data ∧
    rowPlain.parsedFrom = some (some "alice".data) ∧
    build_jsonl_for_senders [rowPlain] [" alice".data] [] = some ([], 0) := by
  refine ⟨by decide, rfl, by decide⟩

/-- Claim C1 (amended): the build selects exactly the rows whose stored
sender, trimmed and lowercased, equals the lowercased form of some member of
the filter set — the comparison is case-insensitive on both sides but
whitespace-trimmed only on the stored value, not on the filter members. -/
theorem claim_C1_selection (rows : List Row) (selected : List (List Char))
    (prev : List (List Char))
    (h : (build_jsonl_for_senders rows selected prev).isSome = true) :
    build_jsonl_for_senders rows selected prev =
      some (((rows.filter (fun r =>
            decide (∃ s ∈ selected, pyLower (pyStrip (rowSender r)) = pyLower s))).map
          (fun r => serializeRecord (mkRecord r))),
        (rows.filter (fun r =>
            decide (∃ s ∈ selected, pyLower (pyStrip (rowSender r)) = pyLower s))).length) := by
  have hpred : ∀ r ∈ rows, senderMatches (selected.map pyLower) r =
      decide (∃ s ∈ selected, pyLower (pyStrip (rowSender r)) = pyLower s) := by
    intro r _
    simp only [senderMatches]
    apply decide_eq_decide.mpr
    constructor
    · intro hm
      obtain ⟨s, hs, he⟩ := List.mem_map.mp hm
      exact ⟨s, hs, he.symm⟩
    · rintro ⟨s, hs, he⟩
      exact List.mem_map.mpr ⟨s, hs, he.symm⟩
  rcases hb : buildRecords (selected.map pyLower) rows with _ | recs
  · rw [build_jsonl_eq, hb] at h
    simp at h
  · have hrecs := buildRecords_eq_filterMap _ rows recs hb
    rw [build_jsonl_eq, hb]
    subst hrecs
    rw [List.filter_congr hpred]
    simp [List.map_map, Function.comp_def]

/-- Witness for the amended claim C1: selecting `"ALICE"` matches the row
whose stored sender is `"alice "` (trailing space), yielding one record. -/
theorem claim_C1_witness :
    ((build_jsonl_for_senders [rowAlice] ["ALICE".data] []).isSome = true) ∧
    build_jsonl_for_senders [rowAlice] ["ALICE".data] [] =
      some ((([rowAlice].filter (fun r =>
            decide (∃ s ∈ ["ALICE".data], pyLower (pyStrip (rowSender r)) = pyLower s))).map
          (fun r => serializeRecord (mkRecord r))),
        ([rowAlice].filter (fun r =>
            decide (∃ s ∈ ["ALICE".data], pyLower (pyStrip (rowSender r)) = pyLower s))).length) ∧
    ([rowAlice].filter (fun r =>
        decide (∃ s ∈ ["ALICE".data], pyLower (pyStrip (rowSender r)) = pyLower s))).length
      = 1 :=
  ⟨by decide, claim_C1_selection [rowAlice] ["ALICE".data] [] (by decide), by decide⟩

/-- Claim C4 counterexample. A short CSV row leaves the subject column
present with value `None`; when the row's sender matches the selection,
`row.get("Parsed Subject", "").strip()` raises `AttributeError`, so the
builder is not total: the claim that no input causes it to raise is false. -/
theorem claim_C4_counterexample :
    rowBadSubject.parsedSubject = some none ∧
    build_jsonl_for_senders [rowBadSubject] ["alice".data] [] = none := by
  refine ⟨rfl, by decide⟩

/-- Claim C4 (amended): a row whose subject or body key is absent is handled
by defaulting the field to the empty string, and the builder succeeds on
every row list in which no matching row carries a present-but-None subject
or body cell; only such a None cell (a short CSV row) makes it raise. -/
theorem claim_C4_builder_defaults (rows : List Row) (selected : List (List Char))
    (prev : List (List Char))
    (h : ∀ r ∈ rows, senderMatches (selected.map pyLower) r = true →
      r.parsedSubject ≠ some none ∧ r.parsedBody ≠ some none) :
    (build_jsonl_for_senders rows selected prev).isSome = true ∧
    getField none = some [] := by
  refine ⟨?_, rfl⟩
  rw [build_jsonl_eq, Option.isSome_map']
  exact buildRecords_isSome _ rows h

/-- Witness for the amended claim C4: a matching row whose subject and body
columns are absent entirely is built without error (fields default to ""). -/
theorem claim_C4_witness :
    (∀ r ∈ [rowAlice, rowNoKeys], senderMatches (["alice".data].map pyLower) r = true →
      r.parsedSubject ≠ some none ∧ r.parsedBody ≠ some none) ∧
    (build_jsonl_for_senders [rowAlice, rowNoKeys] ["alice".data] []).isSome = true ∧
    getField none = some [] :=
  ⟨by decide,
   (claim_C4_builder_defaults [rowAlice, rowNoKeys] ["alice".data] [] (by decide)).1,
   (claim_C4_builder_defaults [rowAlice, rowNoKeys] ["alice".data] [] (by decide)).2⟩

/-- Claim C6: a successful build writes exactly one line per built record
and returns that count; the lines are the serializations of the records of
the matching rows in input order; every record's messages array has length
2, the user message (embedding the trimmed subject in the fixed template)
followed by the assistant message (the trimmed body); every line is free of
newline characters (json.dumps escapes them); and the output is independent
of the previous file content (the file is opened in "w" mode, so it is
overwritten, not appended). The code passes no per-record system message, so
the messages array always has length exactly 2. -/
theorem claim_C6_output_shape (rows : List Row) (selected : List (List Char))
    (prev prev2 : List (List Char))
    (h : (build_jsonl_for_senders rows selected prev).isSome = true) :
    build_jsonl_for_senders rows selected prev =
      some (((rows.filter (senderMatches (selected.map pyLower))).map
          (fun r => serializeRecord (mkRecord r))),
        ((rows.filter (senderMatches (selected.map pyLower))).map
          (fun r => serializeRecord (mkRecord r))).length) ∧
    (∀ r : Row, (mkRecord r).messages.length = 2) ∧
    (∀ r : Row, (mkRecord r).messages =
      [⟨"user".data, user_content (pyStrip ((getField r.parsedSubject).getD []))⟩,
       ⟨"assistant".data, pyStrip ((getField r.parsedBody).getD [])⟩]) ∧
    (∀ r : Row, '\n' ∉ serializeRecord (mkRecord r)) ∧
    build_jsonl_for_senders rows selected prev2 = build_jsonl_for_senders rows selected prev := by
  refine ⟨?_, fun r => rfl, fun r => rfl,
    fun r => newline_not_mem_serializeRecord _, by rw [build_jsonl_eq, build_jsonl_eq]⟩
  rcases hb : buildRecords (selected.map pyLower) rows with _ | recs
  · rw [build_jsonl_eq, hb] at h
    simp at h
  · have hrecs := buildRecords_eq_filterMap _ rows recs hb
    rw [build_jsonl_eq, hb]
    subst hrecs
    simp [List.map_map, Function.comp_def]

/-- Witness for claim C6 on two rows of which one matches, with two
different previous file contents. -/
theorem claim_C6_witness :
    ((build_jsonl_for_senders [rowAlice, rowBob] ["alice".data] []).isSome = true) ∧
    build_jsonl_for_senders [rowAlice, rowBob] ["alice".data] [] =
      some ((([rowAlice, rowBob].filter (senderMatches (["alice".data].map pyLower))).map
          (fun r => serializeRecord (mkRecord r))),
        (([rowAlice, rowBob].filter (senderMatches (["alice".data].map pyLower))).map
          (fun r => serializeRecord (mkRecord r))).length) ∧
    (mkRecord rowAlice).messages.length = 2 ∧
    ('\n' ∉ serializeRecord (mkRecord rowAlice)) ∧
    build_jsonl_for_senders [rowAlice, rowBob] ["alice".data]
        [serializeRecord (mkRecord rowBob)] =
      build_jsonl_for_senders [rowAlice, rowBob] ["alice".data] [] :=
  ⟨by decide,
   (claim_C6_output_shape [rowAlice, rowBob] ["alice".data] [] [] (by decide)).1,
   by decide, by decide,
   (claim_C6_output_shape [rowAlice, rowBob] ["alice".data] []
     [serializeRecord (mkRecord rowBob)] (by decide)).2.2.2.2⟩

/-! ### Split and grouping helper lemmas -/

/-- Every token produced by the splitter is non-empty and whitespace-free. -/
theorem splitAux_tokens :
    ∀ (s acc : List Char), (∀ c ∈ acc, c.isWhitespace = false) →
      ∀ t ∈ splitAux acc s, t ≠ [] ∧ ∀ c ∈ t, c.isWhitespace = false := by
  intro s
  induction s with
  | nil =>
    intro acc hacc t ht
    simp only [splitAux] at ht
    split at ht
    · simp at ht
    · next hne =>
      simp only [List.mem_singleton] at ht
      subst ht
      refine ⟨by simpa using hne, ?_⟩
      intro c hc
      exact hacc c (List.mem_reverse.mp hc)
  | cons c cs ih =>
    intro acc hacc t ht
    simp only [splitAux] at ht
    split at ht
    · split at ht
      · exact ih [] (by simp) t ht
      · next hane =>
        rcases List.mem_cons.mp ht with h | h
        · subst h
          exact ⟨by simpa using hane, fun d hd => hacc d (List.mem_reverse.mp hd)⟩
        · exact ih [] (by simp) t h
    · next hw =>
      refine ih (c :: acc) ?_ t ht
      intro d hd
      rcases List.mem_cons.mp hd with h | h
      · subst h
        simpa using hw
      · exact hacc d h

/-- The splitter returns no token only on all-whitespace input. -/
theorem splitAux_eq_nil :
    ∀ (s acc : List Char), splitAux acc s = [] →
      acc = [] ∧ ∀ c ∈ s, c.isWhitespace = true := by
  intro s
  induction s with
  | nil =>
    intro acc h
    simp only [splitAux] at h
    split at h
    · next he => exact ⟨he, by simp⟩
    · simp at h
  | cons c cs ih =>
    intro acc h
    simp only [splitAux] at h
    split at h
    · next hw =>
      split at h
      · next he =>
        obtain ⟨-, hall⟩ := ih [] h
        refine ⟨he, ?_⟩
        intro d hd
        rcases List.mem_cons.mp hd with h1 | h1
        · subst h1; exact hw
        · exact hall d h1
      · simp at h
    · obtain ⟨habs, -⟩ := ih (c :: acc) h
      simp at habs

/-- Stripping an all-whitespace string yields the empty string. -/
theorem pyStrip_eq_nil_of_all_ws (s : List Char) (h : ∀ c ∈ s, c.isWhitespace = true) :
    pyStrip s = [] := by
  have h1 : s.dropWhile Char.isWhitespace = [] := by
    rw [List.dropWhile_eq_nil_iff]
    exact h
  simp [pyStrip, h1]

/-- A string with a non-whitespace character splits into at least one token. -/
theorem pySplit_ne_nil (s : List Char) (h : pyStrip s ≠ []) : pySplit s ≠ [] := by
  intro hc
  obtain ⟨-, hall⟩ := splitAux_eq_nil s [] hc
  exact h (pyStrip_eq_nil_of_all_ws s hall)

/-- On a string with a non-whitespace character, `get_first_name` succeeds
and returns one of the split tokens. -/
theorem get_first_name_isSome (s : List Char) (h : pyStrip s ≠ []) :
    ∃ fn, get_first_name s = some fn ∧ fn ∈ pySplit s := by
  have hs : s ≠ [] := by
    intro he
    rw [he] at h
    exact h rfl
  rcases hsp : pySplit s with _ | ⟨fn, rest⟩
  · exact absurd hsp (pySplit_ne_nil s h)
  · exact ⟨fn, by simp [get_first_name, hs, hsp], by simp [hsp]⟩

/-- Splitting with a pending non-whitespace chunk followed by a space emits
that chunk as the next token. -/
theorem splitAux_token_append (rest : List Char) :
    ∀ (fn acc : List Char), (∀ c ∈ fn, c.isWhitespace = false) → (fn ≠ [] ∨ acc ≠ []) →
      splitAux acc (fn ++ ' ' :: rest) = (acc.reverse ++ fn) :: splitAux [] rest := by
  intro fn
  induction fn with
  | nil =>
    intro acc _ hne
    have hane : acc ≠ [] := by
      rcases hne with h | h
      · exact absurd rfl h
      · exact h
    simp only [List.nil_append, splitAux]
    rw [if_pos (show (' ').isWhitespace = true by decide), if_neg hane]
    simp
  | cons c fn ih =>
    intro acc hfn hne
    have hc : c.isWhitespace = false := hfn c (by simp)
    simp only [List.cons_append, splitAux]
    rw [if_neg (by simp [hc])]
    show splitAux (c :: acc) (fn ++ ' ' :: rest) = _
    rw [ih (c :: acc) (fun d hd => hfn d (by simp [hd])) (Or.inr (by simp))]
    simp

/-- The first token of `fn ++ " " ++ rest` is `fn` itself when `fn` is a
non-empty whitespace-free chunk. -/
theorem pySplit_token_head (fn rest : List Char) (hfn : ∀ c ∈ fn, c.isWhitespace = false)
    (hne : fn ≠ []) : (pySplit (fn ++ ' ' :: rest)).head? = some fn := by
  rw [pySplit, splitAux_token_append rest fn [] hfn (Or.inl hne)]
  simp

theorem all_variations_data :
    " (All variations)".data = ' ' :: "(All variations)".data := rfl

/-- A string ends with any of its suffixes. -/
theorem pyEndsWith_append (x sfx : List Char) : pyEndsWith (x ++ sfx) sfx = true := by
  simp only [pyEndsWith, Bool.and_eq_true, decide_eq_true_eq]
  refine ⟨by simp, ?_⟩
  have hlen : (x ++ sfx).length - sfx.length = x.length := by
    simp
  rw [hlen, List.drop_left]

/-- Lookup after one grouping insertion. -/
theorem lookupGroup_addToGroup (fn s k : List Char) :
    ∀ acc, lookupGroup (addToGroup acc fn s) k =
      if k = fn then some ((lookupGroup acc fn).getD [] ++ [s]) else lookupGroup acc k := by
  intro acc
  induction acc with
  | nil =>
    by_cases hk : k = fn
    · subst hk
      simp [addToGroup, lookupGroup]
    · have hk2 : ¬fn = k := fun he => hk he.symm
      simp [addToGroup, lookupGroup, hk, hk2]
  | cons p rest ih =>
    obtain ⟨k0, l0⟩ := p
    simp only [addToGroup]
    by_cases h0 : k0 = fn
    · subst h0
      rw [if_pos rfl]
      by_cases hk : k0 = k
      · subst hk
        simp [lookupGroup]
      · rw [if_neg (fun he => hk he.symm)]
        simp [lookupGroup, hk]
    · rw [if_neg h0]
      by_cases hk : k0 = k
      · subst hk
        rw [if_neg (fun he => h0 he)]
        simp [lookupGroup]
      · simp only [lookupGroup, if_neg hk]
        rw [ih]
        by_cases hkfn : k = fn
        · subst hkfn
          rw [if_pos rfl, if_pos rfl]
          simp [lookupGroup, if_neg h0]
        · rw [if_neg hkfn, if_neg hkfn]

/-- Keys after one grouping insertion: unchanged when the first name already
has a group, otherwise the new key is appended. -/
theorem keys_addToGroup (fn s : List Char) :
    ∀ acc, (addToGroup acc fn s).map Prod.fst =
      if fn ∈ acc.map Prod.fst then acc.map Prod.fst else acc.map Prod.fst ++ [fn] := by
  intro acc
  induction acc with
  | nil => simp [addToGroup]
  | cons p rest ih =>
    obtain ⟨k0, l0⟩ := p
    by_cases h0 : k0 = fn
    · subst h0
      simp [addToGroup]
    · simp only [addToGroup, if_neg h0, List.map_cons, List.mem_cons]
      rw [ih]
      have h02 : ¬fn = k0 := fun he => h0 he.symm
      by_cases hm : fn ∈ rest.map Prod.fst
      · simp [hm, h02]
      · simp [hm, h02]

theorem nodup_keys_addToGroup (acc : List (List Char × List (List Char)))
    (fn s : List Char) (h : (acc.map Prod.fst).Nodup) :
    ((addToGroup acc fn s).map Prod.fst).Nodup := by
  rw [keys_addToGroup]
  by_cases hm : fn ∈ acc.map Prod.fst
  · simpa [hm] using h
  · simp only [hm, if_false]
    simp [List.nodup_append, h, hm]

/-- A successful lookup is a membership. -/
theorem lookupGroup_mem :
    ∀ (g : List (List Char × List (List Char))) (k l : _),
      lookupGroup g k = some l → (k, l) ∈ g := by
  intro g
  induction g with
  | nil =>
    intro k l h
    simp [lookupGroup] at h
  | cons p rest ih =>
    intro k l h
    obtain ⟨k0, l0⟩ := p
    simp only [lookupGroup] at h
    split at h
    · next he =>
      subst he
      simp only [Option.some.injEq] at h
      subst h
      simp
    · exact List.mem_cons_of_mem _ (ih k l h)

/-- With distinct keys, a membership determines the lookup. -/
theorem lookupGroup_eq_of_mem :
    ∀ (g : List (List Char × List (List Char))), (g.map Prod.fst).Nodup →
      ∀ k l, (k, l) ∈ g → lookupGroup g k = some l := by
  intro g
  induction g with
  | nil =>
    intro _ k l h
    simp at h
  | cons p rest ih =>
    intro hnd k l hm
    obtain ⟨k0, l0⟩ := p
    simp only [List.map_cons, List.nodup_cons] at hnd
    rcases List.mem_cons.mp hm with h | h
    · cases h
      simp [lookupGroup]
    · have hk : ¬(k0 = k) := by
        intro he
        subst he
        exact hnd.1 (List.mem_map.mpr ⟨(k0, l), h, rfl⟩)
      simp only [lookupGroup, if_neg hk]
      exact ih hnd.2 k l h

/-- Invariant of the grouping loop: it succeeds on senders whose first name
is defined, keeps group keys distinct, and each key's group accumulates
exactly the senders whose first name is that key, in input order. -/
theorem group_senders_aux_spec :
    ∀ (rest : List (List Char)) (acc : List (List Char × List (List Char))),
      (∀ s ∈ rest, pyStrip s ≠ []) → (acc.map Prod.fst).Nodup →
      ∃ g, group_senders_aux acc rest = some g ∧ (g.map Prod.fst).Nodup ∧
        ∀ k, lookupGroup g k =
          (if rest.filter (fun s => decide (get_first_name s = some k)) = []
           then lookupGroup acc k
           else some ((lookupGroup acc k).getD []
             ++ rest.filter (fun s => decide (get_first_name s = some k)))) := by
  intro rest
  induction rest with
  | nil =>
    intro acc _ hnd
    exact ⟨acc, rfl, hnd, fun k => by simp⟩
  | cons s rest ih =>
    intro acc hall hnd
    obtain ⟨fn, hfn, -⟩ := get_first_name_isSome s (hall s (by simp))
    simp only [group_senders_aux, hfn]
    obtain ⟨g, hg, hgnd, hspec⟩ :=
      ih (addToGroup acc fn s) (fun x hx => hall x (by simp [hx]))
        (nodup_keys_addToGroup acc fn s hnd)
    refine ⟨g, hg, hgnd, ?_⟩
    intro k
    rw [hspec k]
    by_cases hk : k = fn
    · subst hk
      have hdec : decide (get_first_name s = some k) = true := by
        simp [hfn]
      rw [List.filter_cons]
      simp only [hdec, eq_self_iff_true, if_true]
      rw [lookupGroup_addToGroup]
      simp only [if_pos rfl]
      rw [if_neg (List.cons_ne_nil s _)]
      by_cases hF : rest.filter (fun x => decide (get_first_name x = some k)) = []
      · simp [hF]
      · simp [hF, List.append_assoc]
    · have hdec : decide (get_first_name s = some k) = false := by
        simp only [hfn, Option.some.injEq, decide_eq_false_iff_not]
        exact fun he => hk he.symm
      rw [List.filter_cons]
      simp only [hdec, Bool.false_eq_true, if_false]
      rw [lookupGroup_addToGroup, if_neg hk]

/-- The grouping of a sender list: each group under key `k` is exactly the
filter of the senders with first name `k`, and the keys are distinct. -/
theorem group_senders_spec (senders : List (List Char))
    (h : ∀ s ∈ senders, pyStrip s ≠ []) :
    ∃ g, group_senders senders = some g ∧ (g.map Prod.fst).Nodup ∧
      ∀ k, lookupGroup g k =
        (if senders.filter (fun s => decide (get_first_name s = some k)) = [] then none
         else some (senders.filter (fun s => decide (get_first_name s = some k)))) := by
  obtain ⟨g, hg, hnd, hspec⟩ := group_senders_aux_spec senders [] h (by simp)
  refine ⟨g, hg, hnd, fun k => ?_⟩
  rw [hspec k]
  simp [lookupGroup]

/-! ### Grouping claim theorems -/

/-- Claim C9 counterexample. The single-space string is a non-empty sender
string, yet grouping raises: `get_first_name` evaluates `" ".split()[0]` and
`split()` of a whitespace-only string is empty, so the `[0]` indexing raises
`IndexError` instead of producing a partition. -/
theorem claim_C9_counterexample :
    (" ".data ≠ ([] : List Char)) ∧ group_senders [" ".data] = none := by
  exact ⟨by decide, rfl⟩

/-- Claim C9 (amended): for every list of sender strings that each contain a
non-whitespace character (as the senders produced by the extraction step do,
being trimmed and non-empty), grouping succeeds and partitions the senders
by their first whitespace-delimited token: each group holds exactly the
senders with that first token in input order and every sender lands in a
group; a group with more than one member is presented as the single combined
choice `"<first name> (All variations)"` whose selection expands to exactly
the group members, and a singleton group is presented as its sole member,
whose selection expands to exactly that member. -/
theorem claim_C9_grouping (senders : List (List Char))
    (h : ∀ s ∈ senders, pyStrip s ≠ []) :
    (group_senders senders).isSome = true ∧
    (∀ fn l, (fn, l) ∈ (group_senders senders).getD [] →
      l = senders.filter (fun s => decide (get_first_name s = some fn)) ∧ l ≠ [] ∧
      (l.length > 1 →
        display_sender fn l = fn ++ " (All variations)".data ∧
        expand_display ((group_senders senders).getD []) (display_sender fn l) = some l) ∧
      (∀ m, l = [m] →
        display_sender fn l = m ∧
        expand_display ((group_senders senders).getD []) (display_sender fn l) = some [m])) ∧
    (∀ s ∈ senders, ∃ fn l, (fn, l) ∈ (group_senders senders).getD [] ∧ s ∈ l) := by
  obtain ⟨g, hg, hnd, hspec⟩ := group_senders_spec senders h
  rw [hg]
  simp only [Option.getD_some, Option.isSome_some, true_and]
  constructor
  · intro fn l hm
    have hlook := lookupGroup_eq_of_mem g hnd fn l hm
    rw [hspec fn] at hlook
    by_cases hF : senders.filter (fun s => decide (get_first_name s = some fn)) = []
    · rw [if_pos hF] at hlook
      exact absurd hlook (by simp)
    · rw [if_neg hF] at hlook
      have hlF : senders.filter (fun s => decide (get_first_name s = some fn)) = l :=
        Option.some.inj hlook
      have hlne : l ≠ [] := by
        rw [← hlF]
        exact hF
      have hmemfact : ∀ m ∈ l, m ∈ senders ∧ get_first_name m = some fn ∧
          (pySplit m).head? = some fn ∧ m ≠ [] := by
        intro m hm2
        rw [← hlF] at hm2
        obtain ⟨hms, hdec⟩ := List.mem_filter.mp hm2
        have hgfn : get_first_name m = some fn := of_decide_eq_true hdec
        have hmne : m ≠ [] := by
          intro he
          have hps := h m hms
          rw [he] at hps
          exact hps rfl
        have hhead : (pySplit m).head? = some fn := by
          simpa [get_first_name, hmne] using hgfn
        exact ⟨hms, hgfn, hhead, hmne⟩
      obtain ⟨m0, hm0⟩ := List.exists_mem_of_ne_nil l hlne
      obtain ⟨-, -, hhead0, -⟩ := hmemfact m0 hm0
      have hfn_tok : fn ∈ pySplit m0 := by
        rcases hsp : pySplit m0 with _ | ⟨a, t⟩
        · rw [hsp] at hhead0
          simp at hhead0
        · rw [hsp] at hhead0
          simp only [List.head?_cons, Option.some.injEq] at hhead0
          subst hhead0
          simp
      obtain ⟨hfn_ne, hfn_ws⟩ := splitAux_tokens m0 [] (by simp) fn hfn_tok
      refine ⟨hlF.symm, hlne, ?_, ?_⟩
      · intro hlen
        have hdisp : display_sender fn l = fn ++ " (All variations)".data := by
          simp [display_sender, hlen]
        refine ⟨hdisp, ?_⟩
        rw [hdisp]
        have hew : pyEndsWith (fn ++ " (All variations)".data) "(All variations)".data
            = true := by
          rw [all_variations_data, List.append_cons]
          exact pyEndsWith_append (fn ++ [' ']) _
        have hexp : expand_display g (fn ++ " (All variations)".data) = lookupGroup g fn := by
          simp only [expand_display, hew, eq_self_iff_true, if_true]
          rw [pySplit_token_head fn _ hfn_ws hfn_ne]
        rw [hexp]
        exact lookupGroup_eq_of_mem g hnd fn l hm
      · intro m hme
        subst hme
        have hdisp : display_sender fn [m] = m := by
          simp [display_sender]
        refine ⟨hdisp, ?_⟩
        rw [hdisp]
        obtain ⟨-, -, hheadm, -⟩ := hmemfact m (by simp)
        cases hEW : pyEndsWith m "(All variations)".data with
        | false => simp [expand_display, hEW]
        | true =>
          simp only [expand_display, hEW, eq_self_iff_true, if_true]
          rw [hheadm]
          exact lookupGroup_eq_of_mem g hnd fn [m] hm
  · intro s hs
    obtain ⟨fn, hfn, -⟩ := get_first_name_isSome s (h s hs)
    have hsf : s ∈ senders.filter (fun x => decide (get_first_name x = some fn)) :=
      List.mem_filter.mpr ⟨hs, by simp [hfn]⟩
    have hFne : senders.filter (fun x => decide (get_first_name x = some fn)) ≠ [] :=
      List.ne_nil_of_mem hsf
    have hlook : lookupGroup g fn =
        some (senders.filter (fun x => decide (get_first_name x = some fn))) := by
      rw [hspec fn, if_neg hFne]
    exact ⟨fn, _, lookupGroup_mem g fn _ hlook, hsf⟩

/-- Witness for the amended claim C9 on the spec's example: the group
`Alice` holds two variations and is displayed as the single combined choice
expanding to both, the group `Bob` is displayed as `"Bob Lee"` itself. -/
theorem claim_C9_witness :
    (group_senders demoSenders).isSome = true ∧
    group_senders demoSenders = some demoGrouped ∧
    display_sender "Alice".data ["Alice Smith".data, "Alice Jones".data]
      = "Alice (All variations)".data ∧
    expand_display demoGrouped "Alice (All variations)".data
      = some ["Alice Smith".data, "Alice Jones".data] ∧
    display_sender "Bob".data ["Bob Lee".data] = "Bob Lee".data ∧
    expand_display demoGrouped "Bob Lee".data = some ["Bob Lee".data] :=
  ⟨(claim_C9_grouping demoSenders (by decide)).1, by decide, by decide, by decide, by decide,
   by decide⟩
